import Mathlib

/-!
Shallow embedding of the core of `src/src-tauri/src/main.rs` (the rimages
compression/preview pipeline) and proofs of the frozen claims about it.

Modelling conventions:
* Rust `u8`/`u32`/`u64` values are `Nat`; wrap-around is written explicitly
  with `% 2^32` at the one place (`previewProxy`) where a `u32` multiply can
  overflow; `as u32` / `as u64` casts from `f64` are the saturating
  truncations `u32cast` / `u64cast`.
* `f64` arithmetic on image dimensions and sizes is modelled over `ℚ` with
  explicit floor / round-half-away-from-zero; all quantities involved are
  nonnegative and far below 2^53, where `f64` arithmetic on the expressions
  the source builds agrees with exact rational arithmetic up to the final
  floor/round, which is modelled explicitly.
* The external codec libraries (libwebp, ravif, imagequant, the jpeg and
  generic save paths of the `image` crate) are not part of the repository;
  they enter as the fields of a `Codecs` parameter, so every theorem below
  holds for an arbitrary behaviour of those libraries.  The single library
  contract used (a successful quantization of a non-empty image has a
  non-empty palette) is carried as a `Prop` field of `Codecs`.
* The filesystem enters as an `FS` parameter: existence, metadata length,
  decode, header-only dimensions and write success per path.  Writes
  performed by a running batch are not fed back into `FS`; no claim below
  depends on that feedback.
* Events emitted through the tauri `AppHandle` are collected into a `List
  Event`.  The source fans items out over a worker pool; the list below
  records the representative interleaving in input order.  Every per-item
  fact proved (one terminal result per path, the terminal batch event last)
  is invariant under reordering of distinct items' events, and the
  `batch-finished` emission in the source really does happen after
  `pool.install` has joined all workers.
-/

namespace Rimages

/-- `u32::MAX`. -/
def U32MAX : Nat := 4294967295

/-- One past `u32::MAX`: the modulus of wrapping `u32` arithmetic. -/
def U32MOD : Nat := 4294967296

/-- `u64::MAX`. -/
def U64MAX : Nat := 18446744073709551615

/-- One RGBA pixel (the `to_rgba8` view used throughout the source). -/
structure RGBA where
  r : Nat
  g : Nat
  b : Nat
  a : Nat
deriving DecidableEq

/-- The color mode of a decoded `image::DynamicImage`. -/
inductive ColorMode
  | l8 | la8 | rgb8 | rgba8 | rgb16 | rgba16
deriving DecidableEq

/-- A decoded image: dimensions, native color mode, and its RGBA8 pixel
content (`to_rgba8`), row-major. -/
structure Image where
  width : Nat
  height : Nat
  color : ColorMode
  data : List RGBA
deriving DecidableEq

/-- `image::imageops::FilterType`. -/
inductive FilterType
  | nearest | triangle | catmullRom | gaussian | lanczos3
deriving DecidableEq

/-- `image::ImageFormat` (the variants relevant here). -/
inductive ImageFormat
  | jpeg | png | webp | avif | bmp | gif | tiff
deriving DecidableEq

/-- `png::ColorType` of the png crate. -/
inductive PngColorType
  | grayscale | rgb | indexed | grayscaleAlpha | rgba
deriving DecidableEq

/-- The structured content of the PNG that `encode_png` writes: the header
configuration (`set_color`, `set_depth`, `set_palette`) together with the
image data handed to `write_image_data`. -/
structure PngData where
  width : Nat
  height : Nat
  colorType : PngColorType
  depth : Nat
  palette : List Nat
  data : List Nat
deriving DecidableEq

/-- Modelled from the spec: `std::path` handling.  Every path this program
builds has the shape `parent/stem.ext`; `file_stem`, `extension` and
`parent` are the projections of this triple and `join` is rendering. -/
structure FilePath where
  parent : String
  stem : String
  ext : String
deriving DecidableEq

/-- Suffix test on strings, by character list (the behaviour of
`str::ends_with`). -/
def strEndsWith (s t : String) : Bool := t.data.isSuffixOf s.data

/-- Modelled from the spec: `Path::join` of a directory and a file name. -/
def joinPath (d n : String) : String :=
  if d = "" then n
  else if strEndsWith d "/" then d ++ n
  else d ++ "/" ++ n

/-- The full textual path denoted by a `FilePath`. -/
def FilePath.render (p : FilePath) : String :=
  joinPath p.parent (p.stem ++ "." ++ p.ext)

/-- `CompressConfig` of the source (the unused `_prefix`, `_suffix`,
`_custom_names` fields are omitted; the source never reads them). -/
structure CompressConfig where
  paths : List String
  output_dir : String
  format : String
  quality : Nat
  max_width : Option Nat
  max_height : Option Nat
deriving DecidableEq

/-- `ProcessResult` of the source. -/
structure ProcessResult where
  original : String
  status : String
  error_msg : Option String
  new_path : Option String
deriving DecidableEq

/-- `PreviewResult` of the source. -/
structure PreviewResult where
  path : String
  original_size : Nat
  preview_size : Nat
deriving DecidableEq

/-- `ImageMetadata` of the source. -/
structure ImageMetadata where
  path : String
  width : Nat
  height : Nat
  size : Nat
deriving DecidableEq

/-- The events the pipeline emits through the tauri `AppHandle`. -/
inductive Event
  | imgStart (path : String)
  | imgProcessed (r : ProcessResult)
  | previewDone (rs : List PreviewResult)
  | batchFinished
deriving DecidableEq

/-- The filesystem as seen by one batch run: existence, `fs::metadata` byte
length, `image::open` decode, `image::image_dimensions` header read, and
write success (with the textual error an io failure would carry), per
rendered path. -/
structure FS where
  fileExists : String → Bool
  metadataLen : String → Option Nat
  openImage : String → Option Image
  imageDimensions : String → Option (Nat × Nat)
  writeOk : String → Bool
  writeErr : String → String

/-- The external codec libraries the source calls into.  All theorems are
proved for an arbitrary `Codecs`, i.e. for any behaviour of these
libraries.  `quantize_pal_nonempty` is the one library contract used,
modelled from the spec: a successful imagequant quantize-and-remap of an
image with at least one pixel yields at least one palette entry. -/
structure Codecs where
  /-- `webp::Encoder::from_image` succeeds on this image. -/
  webpInit : Image → Bool
  /-- The bytes libwebp produces at a given quality. -/
  webpBytes : Image → Nat → List Nat
  /-- `ravif` encode: image, quality, speed. -/
  avifEncode : Image → Nat → Nat → Except String (List Nat)
  /-- The `image` crate jpeg encoder at a given quality. -/
  jpegEncode : Image → Nat → Except String (List Nat)
  /-- imagequant quantize-then-remap: image, min quality, max quality;
  yields the palette and the remapped index data. -/
  quantize : Image → Nat → Nat → Except String (List RGBA × List Nat)
  /-- Serialized byte size model of the png the png crate writes. -/
  pngBytes : PngData → List Nat
  /-- `DynamicImage::save_with_format` at a rendered path. -/
  saveWithFormat : Image → String → ImageFormat → Except String Unit
  /-- Pixel content produced by the `image` crate resampler at the given
  target dimensions and filter (dimension behaviour is modelled exactly by
  `resize_dimensions`; only the pixel values are abstract). -/
  resample : Image → Nat → Nat → FilterType → List RGBA
  quantize_pal_nonempty :
    ∀ img minq maxq pal px, quantize img minq maxq = Except.ok (pal, px) →
      img.data ≠ [] → pal ≠ []

/-- Rust `f64::round` for the nonnegative values arising here: round half
away from zero. -/
def rustRound (q : ℚ) : ℤ := ⌊q + (1 : ℚ) / 2⌋

/-- Rust saturating `as u32` cast from `f64`, for nonnegative finite
values: truncate, clamp to `u32::MAX`. -/
def u32cast (q : ℚ) : Nat := min (Int.toNat ⌊q⌋) U32MAX

/-- Rust saturating `as u64` cast from `f64`. -/
def u64cast (q : ℚ) : Nat := min (Int.toNat ⌊q⌋) U64MAX

/-- Modelled from the spec: `resize_dimensions` of the `image` crate, the
dimension computation behind `DynamicImage::resize` (aspect-preserving fit
into the given bounds, `fill = false`). -/
def resize_dimensions (w h nw nh : Nat) : Nat × Nat :=
  let wratio : ℚ := (nw : ℚ) / (w : ℚ)
  let hratio : ℚ := (nh : ℚ) / (h : ℚ)
  let ratio := min wratio hratio
  let nw1 := max (Int.toNat (rustRound ((w : ℚ) * ratio))) 1
  let nh1 := max (Int.toNat (rustRound ((h : ℚ) * ratio))) 1
  if U32MAX < nw1 then
    let r2 : ℚ := (U32MAX : ℚ) / (w : ℚ)
    (U32MAX, max (min (Int.toNat (rustRound ((h : ℚ) * r2))) U32MAX) 1)
  else if U32MAX < nh1 then
    let r2 : ℚ := (U32MAX : ℚ) / (h : ℚ)
    (max (min (Int.toNat (rustRound ((w : ℚ) * r2))) U32MAX) 1, U32MAX)
  else (nw1, nh1)

/-- `DynamicImage::resize`: dimensions from `resize_dimensions`, pixel
content from the library resampler, color mode preserved. -/
def resize (C : Codecs) (img : Image) (nwidth nheight : Nat)
    (filter : FilterType) : Image :=
  let d := resize_dimensions img.width img.height nwidth nheight
  { width := d.1, height := d.2, color := img.color,
    data := C.resample img d.1 d.2 filter }

/-- `get_image_format` of the source (`main.rs:53`): the match on the
format tag, falling back to `ImageFormat::Jpeg`. -/
def get_image_format (fmt : String) : ImageFormat :=
  if fmt = "jpg" ∨ fmt = "jpeg" then ImageFormat.jpeg
  else if fmt = "png" then ImageFormat.png
  else if fmt = "webp" then ImageFormat.webp
  else if fmt = "avif" then ImageFormat.avif
  else ImageFormat.jpeg

/-- `encode_webp` of the source (`main.rs:65`). -/
def encode_webp (C : Codecs) (img : Image) (quality : Nat) :
    Except String (List Nat) :=
  if C.webpInit img then Except.ok (C.webpBytes img quality)
  else Except.error "Erreur init WebP"

/-- `encode_avif` of the source (`main.rs:74`): rgba8 conversion is the
identity on our rgba8 view; the speed is the hardcoded 4. -/
def encode_avif (C : Codecs) (img : Image) (quality : Nat) :
    Except String (List Nat) :=
  match C.avifEncode img quality 4 with
  | Except.ok bytes => Except.ok bytes
  | Except.error e => Except.error ("Erreur AVIF: " ++ e)

/-- The quantizer quality window `encode_png` configures
(`main.rs:103-104`): `std::cmp::max(0, quality.saturating_sub(20))` and
`quality` itself. -/
def pngQuantBounds (quality : Nat) : Nat × Nat :=
  (max 0 (quality - 20), quality)

/-- `encode_png` of the source (`main.rs:94`).  `set_quality` rejects a
quality above 100 (imagequant range check); `new_image` rejects a pixel
buffer whose length does not match the dimensions; quantize-and-remap is
the abstract library call; the png crate rejects zero dimensions at
`write_header` and mismatched data length at `write_image_data`.  On
success the written PNG is 8-bit indexed with the palette flattened to RGB
triples (`main.rs:123-132`), alpha dropped. -/
def encode_png (C : Codecs) (img : Image) (quality : Nat) :
    Except String PngData :=
  if 100 < quality then Except.error "Liq config: ValueOutOfRange"
  else if img.data.length ≠ img.width * img.height then
    Except.error "Liq image: bad buffer length"
  else
    match C.quantize img (pngQuantBounds quality).1 (pngQuantBounds quality).2 with
    | Except.error e => Except.error ("Liq quantize: " ++ e)
    | Except.ok (palette, pixels) =>
      if img.width = 0 ∨ img.height = 0 then
        Except.error "zero dimension"
      else if pixels.length ≠ img.width * img.height then
        Except.error "wrong data size"
      else
        Except.ok
          { width := img.width, height := img.height,
            colorType := PngColorType.indexed, depth := 8,
            palette := palette.flatMap (fun c => [c.r, c.g, c.b]),
            data := pixels }

/-- The n-th collision candidate `get_unique_path` tries: candidate 0 is
the desired path itself, candidate n (n ≥ 1) appends `-{n}` to the
original stem (`main.rs:153`). -/
def nthCandidate (p : FilePath) : Nat → FilePath
  | 0 => p
  | n + 1 => { parent := p.parent, stem := p.stem ++ "-" ++ Nat.repr (n + 1),
               ext := p.ext }

/-- The `while path.exists()` loop of `get_unique_path` (`main.rs:152`),
with explicit fuel (the source loops unboundedly; with fuel exhausted the
current candidate is returned).  `orig` carries the stem/extension/parent
captured before the loop. -/
def uniqueLoop (ex : String → Bool) (orig : FilePath) :
    Nat → Nat → FilePath → FilePath
  | 0, _, p => p
  | fuel + 1, counter, p =>
    if ex p.render then
      uniqueLoop ex orig fuel (counter + 1)
        { parent := orig.parent, stem := orig.stem ++ "-" ++ Nat.repr counter,
          ext := orig.ext }
    else p

/-- `get_unique_path` of the source (`main.rs:145`). -/
def get_unique_path (ex : String → Bool) (fuel : Nat) (p : FilePath) :
    FilePath :=
  uniqueLoop ex p fuel 1 p

/-- Modelled from the spec: `Path::file_name` on a path string. -/
def fileName (p : String) : String := (p.splitOn "/").getLastD p

/-- Modelled from the spec: `Path::file_stem` on a path string (name up to
the last dot, a single leading dot not counted as a separator). -/
def fileStem (p : String) : String :=
  let n := fileName p
  let parts := n.splitOn "."
  if parts.length ≤ 1 then n
  else if parts.headD "" = "" ∧ parts.length = 2 then n
  else String.intercalate "." parts.dropLast

/-- One item of `get_images_metadata` (`main.rs:174-190`): header-only
dimensions and `fs::metadata`, dropped when either fails. -/
def metadataItem (fs : FS) (p : String) : Option ImageMetadata :=
  let dims := fs.imageDimensions p
  match fs.metadataLen p with
  | none => none
  | some sz =>
    match dims with
    | some (w, h) => some { path := p, width := w, height := h, size := sz }
    | none => none

/-- `get_images_metadata` of the source (`main.rs:172`): rayon
`par_iter().filter_map().collect()`, which preserves input order. -/
def get_images_metadata (fs : FS) (paths : List String) :
    List ImageMetadata :=
  paths.filterMap (metadataItem fs)

/-- The final target dimensions the preview computes (`main.rs:212-217`):
`scale = min(max_w/orig_w, max_h/orig_h, 1.0)` followed by truncating
`as u32` casts. -/
def previewFinalDims (w h tw th : Nat) : Nat × Nat :=
  let scale : ℚ := min (min ((tw : ℚ) / (w : ℚ)) ((th : ℚ) / (h : ℚ))) 1
  (u32cast ((w : ℚ) * scale), u32cast ((h : ℚ) * scale))

/-- The proxy image and area ratio of the preview (`main.rs:219-227`).
The `u32` products wrap at 2^32 (release-build semantics of the source's
`(final_w * final_h) as f64`). -/
def previewProxy (C : Codecs) (img : Image) (fw fh : Nat) : Image × ℚ :=
  if 256 < fw then
    let proxy := resize C img 256 256 FilterType.triangle
    (proxy, ((fw * fh % U32MOD : Nat) : ℚ)
              / ((proxy.width * proxy.height % U32MOD : Nat) : ℚ))
  else (resize C img fw fh FilterType.triangle, 1)

/-- The proxy compression of the preview (`main.rs:230-241`): the match on
the format tag; an unknown tag yields no size. -/
def encodeBytes (C : Codecs) (cfg : CompressConfig) (img : Image) :
    Option (List Nat) :=
  if cfg.format = "webp" then (encode_webp C img cfg.quality).toOption
  else if cfg.format = "avif" then (encode_avif C img cfg.quality).toOption
  else if cfg.format = "png" then
    ((encode_png C img cfg.quality).toOption).map C.pngBytes
  else if cfg.format = "jpg" ∨ cfg.format = "jpeg" then
    (C.jpegEncode img cfg.quality).toOption
  else none

/-- One item of `preview_images` (`main.rs:203-251`): metadata, decode,
final-dimension estimate, proxy, proxy encode, area-ratio scaling; `none`
(silent omission) on any failure. -/
def previewItem (C : Codecs) (fs : FS) (cfg : CompressConfig) (p : String) :
    Option PreviewResult :=
  match fs.metadataLen p with
  | none => none
  | some original_disk_size =>
    match fs.openImage p with
    | none => none
    | some img =>
      let tw := cfg.max_width.getD U32MAX
      let th := cfg.max_height.getD U32MAX
      let fd := previewFinalDims img.width img.height tw th
      let pr := previewProxy C img fd.1 fd.2
      match encodeBytes C cfg pr.1 with
      | none => none
      | some bytes =>
        some { path := p, original_size := original_disk_size,
               preview_size := u64cast ((bytes.length : ℚ) * pr.2) }

/-- The collected preview results (`main.rs:203`): rayon
`par_iter().filter_map().collect()`, which preserves input order. -/
def previewResults (C : Codecs) (fs : FS) (cfg : CompressConfig) :
    List PreviewResult :=
  cfg.paths.filterMap (previewItem C fs cfg)

/-- `preview_images` (`main.rs:198`): a single `preview-done` event
carrying all surviving results, and nothing else. -/
def preview_images (C : Codecs) (fs : FS) (cfg : CompressConfig) :
    List Event :=
  [Event.previewDone (previewResults C fs cfg)]

/-- A disk write (or `File::create`) at a path: success per the
filesystem, the io error message otherwise.  The bytes written do not
influence success in this model. -/
def fsWrite (fs : FS) (p : FilePath) : Except String Unit :=
  if fs.writeOk p.render then Except.ok () else Except.error (fs.writeErr p.render)

/-- The extension of the output file name (`main.rs:299`): the format tag,
with "jpeg" normalized to "jpg". -/
def outputExt (cfg : CompressConfig) : String :=
  if cfg.format = "jpeg" then "jpg" else cfg.format

/-- The `ImageFormat` the fallback save branch passes to
`save_with_format` (`main.rs:319`). -/
def fallbackFormatUsed (cfg : CompressConfig) : ImageFormat :=
  get_image_format cfg.format

/-- The image the Batch Executor passes to encoding (`main.rs:292-296`):
resized with Lanczos3 only when a decoded dimension exceeds its cap. -/
def compressFinal (C : Codecs) (cfg : CompressConfig) (img : Image) : Image :=
  if cfg.max_width.getD U32MAX < img.width
      ∨ cfg.max_height.getD U32MAX < img.height then
    resize C img (cfg.max_width.getD U32MAX) (cfg.max_height.getD U32MAX)
      FilterType.lanczos3
  else img

/-- The encode-and-write step of one batch item (`main.rs:307-320`): the
match on the format tag.  The jpeg branch models `File::create` followed
by the jpeg encoder into a `BufWriter` (whose drop-time flush errors the
source ignores); the fallback branch is `save_with_format` with the
hardcoded format from `get_image_format`. -/
def compressSave (C : Codecs) (fs : FS) (cfg : CompressConfig) (img : Image)
    (out : FilePath) : Except String Unit :=
  if cfg.format = "webp" then
    (encode_webp C img cfg.quality).bind (fun _ => fsWrite fs out)
  else if cfg.format = "avif" then
    (encode_avif C img cfg.quality).bind (fun _ => fsWrite fs out)
  else if cfg.format = "png" then
    (encode_png C img cfg.quality).bind (fun _ => fsWrite fs out)
  else if cfg.format = "jpg" ∨ cfg.format = "jpeg" then
    (fsWrite fs out).bind
      (fun _ => (C.jpegEncode img cfg.quality).map (fun _ => ()))
  else C.saveWithFormat img out.render (fallbackFormatUsed cfg)

/-- The terminal `ProcessResult` of one batch item (`main.rs:287-334`). -/
def compressItemResult (C : Codecs) (fs : FS) (cfg : CompressConfig)
    (fuel : Nat) (p : String) : ProcessResult :=
  match fs.openImage p with
  | none =>
    { original := p, status := "error", error_msg := some "Open failed",
      new_path := none }
  | some img =>
    let final_img := compressFinal C cfg img
    let base : FilePath :=
      { parent := cfg.output_dir, stem := fileStem p ++ "-compressed",
        ext := outputExt cfg }
    let output_path := get_unique_path fs.fileExists fuel base
    match compressSave C fs cfg final_img output_path with
    | Except.ok _ =>
      { original := p, status := "success", error_msg := none,
        new_path := some output_path.render }
    | Except.error e =>
      { original := p, status := "error", error_msg := some e,
        new_path := none }

/-- The events one batch item emits (`main.rs:284` and `main.rs:326/329`):
the start signal, then exactly one terminal result. -/
def compressItem (C : Codecs) (fs : FS) (cfg : CompressConfig) (fuel : Nat)
    (p : String) : List Event :=
  [Event.imgStart p, Event.imgProcessed (compressItemResult C fs cfg fuel p)]

/-- `compress_images` (`main.rs:275`): the per-item events of every path
(in the representative input-order interleaving) followed by the single
`batch-finished` event that the source emits after `pool.install` has
joined all workers. -/
def compress_images (C : Codecs) (fs : FS) (cfg : CompressConfig)
    (fuel : Nat) : List Event :=
  (cfg.paths.flatMap (compressItem C fs cfg fuel)) ++ [Event.batchFinished]

/-- The `ProcessResult` an event carries, when it is a terminal per-item
event. -/
def eventResult : Event → Option ProcessResult
  | Event.imgProcessed r => some r
  | _ => none

/-- Modelled from the spec: the format the generic library
save-by-extension path would derive from an output extension, for
comparison with what the code actually passes. -/
def formatFromExtension (e : String) : Option ImageFormat :=
  if e = "jpg" ∨ e = "jpeg" then some ImageFormat.jpeg
  else if e = "png" then some ImageFormat.png
  else if e = "webp" then some ImageFormat.webp
  else if e = "avif" then some ImageFormat.avif
  else if e = "bmp" then some ImageFormat.bmp
  else if e = "gif" then some ImageFormat.gif
  else if e = "tif" ∨ e = "tiff" then some ImageFormat.tiff
  else none

/-! Concrete instances used by the witness theorems. -/

/-- A concrete codec backend for witnesses: every encoder succeeds, the
quantizer emits a one-color palette and a zero index per pixel. -/
def codecsW : Codecs where
  webpInit := fun _ => true
  webpBytes := fun _ _ => [0]
  avifEncode := fun _ _ _ => Except.ok [0]
  jpegEncode := fun _ _ => Except.ok [0, 1]
  quantize := fun img _ _ =>
    Except.ok ([⟨0, 0, 0, 255⟩], List.replicate (img.width * img.height) 0)
  pngBytes := fun d => d.palette ++ d.data
  saveWithFormat := fun _ _ _ => Except.ok ()
  resample := fun _ w h _ => List.replicate (w * h) ⟨0, 0, 0, 255⟩
  quantize_pal_nonempty := by
    intro img minq maxq pal px h _
    simp only [Except.ok.injEq, Prod.mk.injEq] at h
    simp [← h.1]

/-- A 2×1 test image. -/
def imgW21 : Image :=
  { width := 2, height := 1, color := ColorMode.rgba8,
    data := [⟨1, 2, 3, 255⟩, ⟨4, 5, 6, 255⟩] }

/-- A concrete filesystem for witnesses: two paths `a` and `b` decode to a
2×1 image, everything else fails; no output path exists yet; writes
succeed. -/
def fsW : FS where
  fileExists := fun _ => false
  metadataLen := fun p => if p = "a" ∨ p = "b" then some 100 else none
  openImage := fun p => if p = "a" ∨ p = "b" then some imgW21 else none
  imageDimensions := fun p => if p = "a" ∨ p = "b" then some (2, 1) else none
  writeOk := fun _ => true
  writeErr := fun _ => "io error"

/-- A 1×1 test image. -/
def imgW1 : Image :=
  { width := 1, height := 1, color := ColorMode.rgba8, data := [⟨1, 2, 3, 4⟩] }

/-- A 5×3 test image (pixel content irrelevant to the dimension claims). -/
def imgW53 : Image :=
  { width := 5, height := 3, color := ColorMode.rgb8,
    data := List.replicate 15 ⟨9, 9, 9, 255⟩ }

/-- A configuration capping width at 3, used by the dimension
counterexample. -/
def cfgCap3 : CompressConfig :=
  { paths := ["a"], output_dir := "out", format := "webp", quality := 80,
    max_width := some 3, max_height := none }

/-- A configuration with an unknown format tag. -/
def cfgBmp : CompressConfig :=
  { paths := ["a"], output_dir := "out", format := "bmp", quality := 80,
    max_width := none, max_height := none }

/-- A webp configuration over one readable and one missing path. -/
def cfgPrev : CompressConfig :=
  { paths := ["a", "missing"], output_dir := "out", format := "webp",
    quality := 80, max_width := none, max_height := none }

/-- A webp configuration over the two readable paths. -/
def cfgPrev2 : CompressConfig :=
  { paths := ["a", "b"], output_dir := "out", format := "webp",
    quality := 80, max_width := none, max_height := none }

/-! ## Helper lemmas -/

lemma uniqueLoop_spec (ex : String → Bool) (p : FilePath) (N : Nat)
    (hfree : ex (nthCandidate p N).render = false) :
    ∀ fuel j, j ≤ N → N - j < fuel →
      (∀ k, j ≤ k → k < N → ex (nthCandidate p k).render = true) →
      uniqueLoop ex p fuel (j + 1) (nthCandidate p j) = nthCandidate p N := by
  intro fuel
  induction fuel with
  | zero => intro j _ h _; omega
  | succ f ih =>
    intro j hjN hfuel hex
    rcases Nat.lt_or_ge j N with hlt | hge
    · rw [uniqueLoop, if_pos (hex j le_rfl hlt)]
      have hstep :
          ({ parent := p.parent, stem := p.stem ++ "-" ++ Nat.repr (j + 1),
             ext := p.ext } : FilePath) = nthCandidate p (j + 1) := rfl
      rw [hstep]
      exact ih (j + 1) hlt (by omega) (fun k hk1 hk2 => hex k (by omega) hk2)
    · have hjN2 : j = N := by omega
      subst hjN2
      rw [uniqueLoop, if_neg (by simp [hfree])]

lemma compressItemResult_original (C : Codecs) (fs : FS)
    (cfg : CompressConfig) (fuel : Nat) (p : String) :
    (compressItemResult C fs cfg fuel p).original = p := by
  unfold compressItemResult
  split
  · rfl
  · dsimp only
    split <;> rfl

lemma compress_results_map (C : Codecs) (fs : FS) (cfg : CompressConfig)
    (fuel : Nat) (ps : List String) :
    ((ps.flatMap (compressItem C fs cfg fuel)).filterMap eventResult).map
        ProcessResult.original = ps := by
  induction ps with
  | nil => rfl
  | cons p t ih =>
    simp [List.flatMap_cons, List.filterMap_append, compressItem, eventResult,
      ih, compressItemResult_original]

lemma compress_no_batchFinished (C : Codecs) (fs : FS) (cfg : CompressConfig)
    (fuel : Nat) (ps : List String) :
    Event.batchFinished ∉ ps.flatMap (compressItem C fs cfg fuel) := by
  simp [List.mem_flatMap, compressItem]

/-! ## C1: one terminal result per path, one terminal batch event -/

/-- C1: every batch run emits exactly one `ProcessResult` per input path —
in order, so the sequence of originating paths of the terminal per-item
events is exactly the input path list — and exactly one `batch-finished`
event, emitted after all per-item events, for every filesystem and codec
behaviour (in particular regardless of how many items failed). -/
theorem compress_images_one_result_per_path (C : Codecs) (fs : FS)
    (cfg : CompressConfig) (fuel : Nat) :
    ((compress_images C fs cfg fuel).filterMap eventResult).map
        ProcessResult.original = cfg.paths
  ∧ (compress_images C fs cfg fuel).getLast? = some Event.batchFinished
  ∧ (compress_images C fs cfg fuel).count Event.batchFinished = 1 := by
  refine ⟨?_, ?_, ?_⟩
  · simp [compress_images, List.filterMap_append, eventResult,
      compress_results_map]
  · simp [compress_images]
  · rw [compress_images, List.count_append,
      List.count_eq_zero.mpr (compress_no_batchFinished C fs cfg fuel cfg.paths)]
    rfl

/-! ## C2: the unique path resolver -/

/-- C2: when the first `N` candidate names (the desired path itself and the
suffixed names `-1` … `-(N-1)`) all exist and the `-N` candidate does not,
`get_unique_path` returns exactly the `-N` candidate (for `N = 0`: the
desired path unchanged), and the returned path does not name an existing
file.  `fuel` bounds the source's unbounded `while` loop; `N < fuel`
suffices for the loop to terminate on its own. -/
theorem get_unique_path_spec (ex : String → Bool) (p : FilePath)
    (N fuel : Nat) (hfuel : N < fuel)
    (hex : ∀ k, k < N → ex (nthCandidate p k).render = true)
    (hfree : ex (nthCandidate p N).render = false) :
    get_unique_path ex fuel p = nthCandidate p N
  ∧ ex (get_unique_path ex fuel p).render = false := by
  have h := uniqueLoop_spec ex p N hfree fuel 0 (Nat.zero_le N) (by omega)
    (fun k _ hk2 => hex k hk2)
  have hmain : get_unique_path ex fuel p = nthCandidate p N := h
  exact ⟨hmain, by rw [hmain]; exact hfree⟩

/-- Witness for C2 at a concrete filesystem: `d/a.png` and `d/a-1.png`
exist, so the resolver returns the `-2` candidate and it is unused. -/
theorem get_unique_path_spec_witness :
    get_unique_path (fun s => s == "d/a.png" || s == "d/a-1.png") 3
        ⟨"d", "a", "png"⟩ = nthCandidate ⟨"d", "a", "png"⟩ 2
  ∧ (fun s => s == "d/a.png" || s == "d/a-1.png")
      (get_unique_path (fun s => s == "d/a.png" || s == "d/a-1.png") 3
        ⟨"d", "a", "png"⟩).render = false :=
  get_unique_path_spec (fun s => s == "d/a.png" || s == "d/a-1.png")
    ⟨"d", "a", "png"⟩ 2 3 (by decide) (by decide) (by decide)

/-! ## C3: resize only when a cap is exceeded -/

/-- C3: the image the Batch Executor passes to encoding is the decoded
image unchanged whenever both dimensions are within the configured caps
(an absent cap being `u32::MAX`), and a Lanczos3 resize is applied exactly
when the width exceeds the width cap or the height exceeds the height
cap. -/
theorem compress_resize_only_when_exceeds (C : Codecs)
    (cfg : CompressConfig) (img : Image) :
    (img.width ≤ cfg.max_width.getD U32MAX →
      img.height ≤ cfg.max_height.getD U32MAX →
      compressFinal C cfg img = img)
  ∧ (cfg.max_width.getD U32MAX < img.width
      ∨ cfg.max_height.getD U32MAX < img.height →
      compressFinal C cfg img =
        resize C img (cfg.max_width.getD U32MAX)
          (cfg.max_height.getD U32MAX) FilterType.lanczos3) := by
  constructor
  · intro h1 h2
    rw [compressFinal, if_neg (by omega)]
  · intro h
    rw [compressFinal, if_pos h]

/-- Witness for C3: a 1×1 image under absent caps passes through
unchanged; the 5×3 image under a width cap of 3 goes through the Lanczos3
resize. -/
theorem compress_resize_only_when_exceeds_witness :
    compressFinal codecsW cfgBmp imgW1 = imgW1
  ∧ compressFinal codecsW cfgCap3 imgW53 =
      resize codecsW imgW53 3 U32MAX FilterType.lanczos3 :=
  ⟨(compress_resize_only_when_exceeds codecsW cfgBmp imgW1).1
      (by decide) (by decide),
   (compress_resize_only_when_exceeds codecsW cfgCap3 imgW53).2
      (Or.inl (by decide))⟩

/-! ## C4: the PNG encoder -/

/-- C4: `encode_png` hands the quantizer the quality window with lower
bound `max(0, quality − 20)` (as the saturating subtraction computes over
the integers) and upper bound `quality`, and every successful encode is an
8-bit indexed PNG whose palette is the non-empty flattening of the
quantizer palette into RGB triples, with no alpha entries. -/
theorem encode_png_spec (C : Codecs) (img : Image) (quality : Nat)
    (d : PngData) (hq : quality ≤ 100)
    (hok : encode_png C img quality = Except.ok d) :
    ((pngQuantBounds quality).1 : ℤ) = max 0 ((quality : ℤ) - 20)
  ∧ (pngQuantBounds quality).2 = quality
  ∧ d.colorType = PngColorType.indexed
  ∧ d.depth = 8
  ∧ d.palette ≠ []
  ∧ ∃ pal px,
      C.quantize img (pngQuantBounds quality).1 (pngQuantBounds quality).2
          = Except.ok (pal, px)
        ∧ d.palette = pal.flatMap (fun c => [c.r, c.g, c.b]) := by
  unfold encode_png at hok
  rw [if_neg (by omega)] at hok
  by_cases hlen : img.data.length ≠ img.width * img.height
  · rw [if_pos hlen] at hok
    simp at hok
  · rw [if_neg hlen] at hok
    push_neg at hlen
    split at hok
    · simp at hok
    · rename_i pal px heq
      split at hok
      · simp at hok
      · rename_i hz
        split at hok
        · simp at hok
        · obtain rfl : _ = d := Except.ok.inj hok
          have hdata : img.data ≠ [] := by
            intro hnil
            rw [hnil] at hlen
            simp at hlen
            exact hz (by tauto)
          have hpal : pal ≠ [] :=
            C.quantize_pal_nonempty img _ _ pal px heq hdata
          refine ⟨by simp [pngQuantBounds]; omega, rfl, rfl, rfl, ?_,
            pal, px, heq, rfl⟩
          cases pal with
          | nil => exact absurd rfl hpal
          | cons c t => simp

/-- The PNG produced by the witness backend on the 1×1 image at quality
50. -/
def pngD1 : PngData :=
  { width := 1, height := 1, colorType := PngColorType.indexed, depth := 8,
    palette := [0, 0, 0], data := [0] }

/-- Witness for C4: a concrete successful encode at quality 50 on the 1×1
image, whose palette is the non-empty RGB flattening. -/
theorem encode_png_spec_witness : pngD1.palette ≠ [] :=
  (encode_png_spec codecsW imgW1 50 pngD1 (by decide) (by rfl)).2.2.2.2.1

/-! ## C5: the fallback save path -/

/-- Counterexample to C5 as stated: for the unknown format tag "bmp", the
output path carries the extension "bmp" — whose save-by-extension format
would be BMP — but the format the fallback branch actually passes to
`save_with_format` is the hardcoded `ImageFormat::Jpeg` that
`get_image_format` returns for unknown tags. -/
theorem fallback_save_by_extension_cex :
    fallbackFormatUsed cfgBmp = ImageFormat.jpeg
  ∧ outputExt cfgBmp = "bmp"
  ∧ formatFromExtension (outputExt cfgBmp) = some ImageFormat.bmp
  ∧ ImageFormat.jpeg ≠ ImageFormat.bmp := by
  refine ⟨rfl, rfl, rfl, ?_⟩
  intro h
  cases h

/-- C5 amended: for every format tag outside {jpg, jpeg, png, webp, avif},
the item is saved via the generic library `save_with_format` call, but with
the format hardcoded to `ImageFormat::Jpeg` by `get_image_format`'s
fallback arm — the output format is not determined by the output path's
extension. -/
theorem fallback_save_hardcoded_jpeg (C : Codecs) (fs : FS)
    (cfg : CompressConfig) (img : Image) (out : FilePath)
    (hfmt : cfg.format ∉ (["jpg", "jpeg", "png", "webp", "avif"] : List String)) :
    compressSave C fs cfg img out
        = C.saveWithFormat img out.render ImageFormat.jpeg
  ∧ fallbackFormatUsed cfg = ImageFormat.jpeg := by
  simp only [List.mem_cons, List.mem_singleton, not_or] at hfmt
  obtain ⟨h1, h2, h3, h4, h5, -⟩ := hfmt
  have hjj : ¬(cfg.format = "jpg" ∨ cfg.format = "jpeg") := not_or.mpr ⟨h1, h2⟩
  have hff : fallbackFormatUsed cfg = ImageFormat.jpeg := by
    rw [fallbackFormatUsed, get_image_format, if_neg hjj, if_neg h3,
      if_neg h4, if_neg h5]
  refine ⟨?_, hff⟩
  rw [compressSave, if_neg h4, if_neg h5, if_neg h3, if_neg hjj, hff]

/-- Witness for C5 amended, at the "bmp" configuration. -/
theorem fallback_save_hardcoded_jpeg_witness :
    compressSave codecsW fsW cfgBmp imgW1 ⟨"out", "x", "bmp"⟩
        = codecsW.saveWithFormat imgW1
            (FilePath.render ⟨"out", "x", "bmp"⟩) ImageFormat.jpeg
  ∧ fallbackFormatUsed cfgBmp = ImageFormat.jpeg :=
  fallback_save_hardcoded_jpeg codecsW fsW cfgBmp imgW1 ⟨"out", "x", "bmp"⟩
    (by decide)

/-! ## C6: preview dimensions versus the actual resize -/

lemma floor_round_bounds (x : ℚ) (hx : 0 ≤ x) :
    Int.toNat ⌊x⌋ ≤ max (Int.toNat ⌊x + 1 / 2⌋) 1
  ∧ max (Int.toNat ⌊x + 1 / 2⌋) 1 ≤ Int.toNat ⌊x⌋ + 1 := by
  have h1 : ⌊x⌋ ≤ ⌊x + 1 / 2⌋ := Int.floor_le_floor (by linarith)
  have h2 : ⌊x + 1 / 2⌋ ≤ ⌊x⌋ + 1 := by
    have h3 : ⌊x + 1 / 2⌋ ≤ ⌊x + 1⌋ := Int.floor_le_floor (by linarith)
    have h4 : ⌊x + (1 : ℚ)⌋ = ⌊x⌋ + 1 := Int.floor_add_one x
    omega
  have h0 : (0 : ℤ) ≤ ⌊x⌋ := Int.floor_nonneg.mpr hx
  omega

lemma floor_natCast_add_half (n : Nat) : ⌊(n : ℚ) + 1 / 2⌋ = n := by
  rw [Int.floor_eq_iff]
  constructor
  · push_cast
    linarith
  · push_cast
    linarith

/-- Both final dimensions the preview computes agree with the dimensions
of the real resize up to the rounding mode, in the case where a cap is
exceeded: preview truncates, the resize rounds and clamps below at 1. -/
lemma preview_batch_dims_resize (w h tw th : Nat) (hw : 0 < w) (hh : 0 < h)
    (hw32 : w ≤ U32MAX) (hh32 : h ≤ U32MAX) (hcase : tw < w ∨ th < h) :
    (previewFinalDims w h tw th).1 ≤ (resize_dimensions w h tw th).1
  ∧ (resize_dimensions w h tw th).1 ≤ (previewFinalDims w h tw th).1 + 1
  ∧ (previewFinalDims w h tw th).2 ≤ (resize_dimensions w h tw th).2
  ∧ (resize_dimensions w h tw th).2 ≤ (previewFinalDims w h tw th).2 + 1 := by
  have hw0 : (0 : ℚ) < (w : ℚ) := by exact_mod_cast hw
  have hh0 : (0 : ℚ) < (h : ℚ) := by exact_mod_cast hh
  have hr0 : 0 ≤ min ((tw : ℚ) / (w : ℚ)) ((th : ℚ) / (h : ℚ)) :=
    le_min (div_nonneg (by positivity) hw0.le)
      (div_nonneg (by positivity) hh0.le)
  have hr1 : min ((tw : ℚ) / (w : ℚ)) ((th : ℚ) / (h : ℚ)) < 1 := by
    rcases hcase with hc | hc
    · exact lt_of_le_of_lt (min_le_left _ _)
        ((div_lt_one hw0).mpr (by exact_mod_cast hc))
    · exact lt_of_le_of_lt (min_le_right _ _)
        ((div_lt_one hh0).mpr (by exact_mod_cast hc))
  simp only [previewFinalDims, resize_dimensions, rustRound, u32cast]
  rw [min_eq_left hr1.le]
  revert hr0 hr1
  generalize min ((tw : ℚ) / (w : ℚ)) ((th : ℚ) / (h : ℚ)) = r
  intro hr0 hr1
  have hx0 : 0 ≤ (w : ℚ) * r := mul_nonneg hw0.le hr0
  have hy0 : 0 ≤ (h : ℚ) * r := mul_nonneg hh0.le hr0
  have hxw : (w : ℚ) * r ≤ (w : ℚ) := by nlinarith
  have hyh : (h : ℚ) * r ≤ (h : ℚ) := by nlinarith
  have hfx : Int.toNat ⌊(w : ℚ) * r⌋ ≤ w := by
    have hm := Int.floor_le_floor hxw
    rw [Int.floor_natCast] at hm
    omega
  have hfy : Int.toNat ⌊(h : ℚ) * r⌋ ≤ h := by
    have hm := Int.floor_le_floor hyh
    rw [Int.floor_natCast] at hm
    omega
  have hfxr : Int.toNat ⌊(w : ℚ) * r + 1 / 2⌋ ≤ w := by
    have hm : ⌊(w : ℚ) * r + 1 / 2⌋ ≤ ⌊(w : ℚ) + 1 / 2⌋ :=
      Int.floor_le_floor (by linarith)
    rw [floor_natCast_add_half] at hm
    omega
  have hfyr : Int.toNat ⌊(h : ℚ) * r + 1 / 2⌋ ≤ h := by
    have hm : ⌊(h : ℚ) * r + 1 / 2⌋ ≤ ⌊(h : ℚ) + 1 / 2⌋ :=
      Int.floor_le_floor (by linarith)
    rw [floor_natCast_add_half] at hm
    omega
  have hU : (1 : Nat) ≤ U32MAX := by norm_num [U32MAX]
  rw [if_neg (by omega), if_neg (by omega),
    min_eq_left (le_trans hfx hw32), min_eq_left (le_trans hfy hh32)]
  have bx := floor_round_bounds ((w : ℚ) * r) hx0
  have by2 := floor_round_bounds ((h : ℚ) * r) hy0
  exact ⟨bx.1, bx.2, by2.1, by2.2⟩

/-- In the no-resize case the preview's final dimensions equal the
original dimensions exactly. -/
lemma previewFinalDims_fits (w h tw th : Nat) (hw : 0 < w) (hh : 0 < h)
    (hw32 : w ≤ U32MAX) (hh32 : h ≤ U32MAX) (h1 : w ≤ tw) (h2 : h ≤ th) :
    previewFinalDims w h tw th = (w, h) := by
  have hw0 : (0 : ℚ) < (w : ℚ) := by exact_mod_cast hw
  have hh0 : (0 : ℚ) < (h : ℚ) := by exact_mod_cast hh
  have hq1 : (1 : ℚ) ≤ (tw : ℚ) / (w : ℚ) :=
    (one_le_div hw0).mpr (by exact_mod_cast h1)
  have hq2 : (1 : ℚ) ≤ (th : ℚ) / (h : ℚ) :=
    (one_le_div hh0).mpr (by exact_mod_cast h2)
  simp only [previewFinalDims, u32cast]
  rw [min_eq_right (le_min hq1 hq2), mul_one, mul_one,
    Int.floor_natCast, Int.floor_natCast]
  simp [min_eq_left hw32, min_eq_left hh32]

/-- Counterexample to C6 as stated: for a 5×3 image under a width cap of
3, the preview computes final dimensions (3, 1) — truncating 3·(3/5) = 1.8
down — while the Batch Executor's actual resize produces (3, 2), rounding
1.8 to nearest.  The two disagree. -/
theorem preview_matches_batch_dims_cex :
    previewFinalDims imgW53.width imgW53.height
        (cfgCap3.max_width.getD U32MAX) (cfgCap3.max_height.getD U32MAX)
      ≠ ((compressFinal codecsW cfgCap3 imgW53).width,
          (compressFinal codecsW cfgCap3 imgW53).height) := by
  have h1 : previewFinalDims imgW53.width imgW53.height
      (cfgCap3.max_width.getD U32MAX) (cfgCap3.max_height.getD U32MAX)
        = (3, 1) := by
    show previewFinalDims 5 3 3 U32MAX = (3, 1)
    norm_num [previewFinalDims, u32cast, U32MAX, min_def]
    decide
  have hc : compressFinal codecsW cfgCap3 imgW53
      = resize codecsW imgW53 3 U32MAX FilterType.lanczos3 := by
    rw [compressFinal, if_pos (by decide)]
    rfl
  have hd : resize_dimensions 5 3 3 U32MAX = (3, 2) := by
    norm_num [resize_dimensions, rustRound, U32MAX, min_def]
    decide
  have h2 : ((compressFinal codecsW cfgCap3 imgW53).width,
      (compressFinal codecsW cfgCap3 imgW53).height) = (3, 2) := by
    rw [hc]
    show ((resize_dimensions 5 3 3 U32MAX).1,
      (resize_dimensions 5 3 3 U32MAX).2) = (3, 2)
    rw [hd]
  rw [h1, h2]
  decide

/-- C6 amended: the final target dimensions the Preview Estimator computes
agree with the dimensions of the image the Batch Executor passes to
encoding up to the differing integer conversion — the preview truncates
where the resize rounds to nearest and clamps below at 1 — so on each axis
the actual dimension is the preview dimension or the preview dimension
plus one (and they agree exactly when no cap is exceeded). -/
theorem preview_matches_batch_dims_amended (C : Codecs)
    (cfg : CompressConfig) (img : Image)
    (hw : 0 < img.width) (hh : 0 < img.height)
    (hw32 : img.width ≤ U32MAX) (hh32 : img.height ≤ U32MAX) :
    ((previewFinalDims img.width img.height (cfg.max_width.getD U32MAX)
        (cfg.max_height.getD U32MAX)).1 ≤ (compressFinal C cfg img).width
    ∧ (compressFinal C cfg img).width
        ≤ (previewFinalDims img.width img.height (cfg.max_width.getD U32MAX)
            (cfg.max_height.getD U32MAX)).1 + 1)
  ∧ ((previewFinalDims img.width img.height (cfg.max_width.getD U32MAX)
        (cfg.max_height.getD U32MAX)).2 ≤ (compressFinal C cfg img).height
    ∧ (compressFinal C cfg img).height
        ≤ (previewFinalDims img.width img.height (cfg.max_width.getD U32MAX)
            (cfg.max_height.getD U32MAX)).2 + 1)
  ∧ (img.width ≤ cfg.max_width.getD U32MAX →
      img.height ≤ cfg.max_height.getD U32MAX →
      (previewFinalDims img.width img.height (cfg.max_width.getD U32MAX)
          (cfg.max_height.getD U32MAX)).1 = (compressFinal C cfg img).width
    ∧ (previewFinalDims img.width img.height (cfg.max_width.getD U32MAX)
          (cfg.max_height.getD U32MAX)).2 = (compressFinal C cfg img).height) := by
  by_cases hcase : cfg.max_width.getD U32MAX < img.width
      ∨ cfg.max_height.getD U32MAX < img.height
  · rw [compressFinal, if_pos hcase]
    have hres := preview_batch_dims_resize img.width img.height
      (cfg.max_width.getD U32MAX) (cfg.max_height.getD U32MAX)
      hw hh hw32 hh32 hcase
    refine ⟨⟨hres.1, hres.2.1⟩, ⟨hres.2.2.1, hres.2.2.2⟩, ?_⟩
    intro h1 h2
    rcases hcase with hc | hc
    · exact absurd h1 (not_le.mpr hc)
    · exact absurd h2 (not_le.mpr hc)
  · push_neg at hcase
    rw [compressFinal, if_neg (by omega),
      previewFinalDims_fits img.width img.height
        (cfg.max_width.getD U32MAX) (cfg.max_height.getD U32MAX)
        hw hh hw32 hh32 hcase.1 hcase.2]
    exact ⟨⟨le_rfl, Nat.le_succ _⟩, ⟨le_rfl, Nat.le_succ _⟩,
      fun _ _ => ⟨rfl, rfl⟩⟩

/-- Witness for C6 amended at the 5×3 image under a width cap of 3: the
preview dimensions (3, 1) bracket the actual resize dimensions (3, 2). -/
theorem preview_matches_batch_dims_amended_witness :
    ((previewFinalDims imgW53.width imgW53.height
        (cfgCap3.max_width.getD U32MAX) (cfgCap3.max_height.getD U32MAX)).1
          ≤ (compressFinal codecsW cfgCap3 imgW53).width
    ∧ (compressFinal codecsW cfgCap3 imgW53).width
        ≤ (previewFinalDims imgW53.width imgW53.height
            (cfgCap3.max_width.getD U32MAX)
            (cfgCap3.max_height.getD U32MAX)).1 + 1)
  ∧ ((previewFinalDims imgW53.width imgW53.height
        (cfgCap3.max_width.getD U32MAX) (cfgCap3.max_height.getD U32MAX)).2
          ≤ (compressFinal codecsW cfgCap3 imgW53).height
    ∧ (compressFinal codecsW cfgCap3 imgW53).height
        ≤ (previewFinalDims imgW53.width imgW53.height
            (cfgCap3.max_width.getD U32MAX)
            (cfgCap3.max_height.getD U32MAX)).2 + 1)
  ∧ (imgW53.width ≤ cfgCap3.max_width.getD U32MAX →
      imgW53.height ≤ cfgCap3.max_height.getD U32MAX →
      (previewFinalDims imgW53.width imgW53.height
          (cfgCap3.max_width.getD U32MAX) (cfgCap3.max_height.getD U32MAX)).1
        = (compressFinal codecsW cfgCap3 imgW53).width
    ∧ (previewFinalDims imgW53.width imgW53.height
          (cfgCap3.max_width.getD U32MAX) (cfgCap3.max_height.getD U32MAX)).2
        = (compressFinal codecsW cfgCap3 imgW53).height) :=
  preview_matches_batch_dims_amended codecsW cfgCap3 imgW53
    (by decide) (by decide) (by decide) (by decide)

/-! ## C7: the proxy threshold and the exact estimate below it -/

/-- C7: whenever the computed final width is at most the proxy threshold
256, the proxy is the final-size resize, the area ratio is 1, and the
emitted estimated size is exactly the byte length of the proxy-encoded
image; and whenever the final width exceeds 256, the proxy is the 256×256
fit and the ratio is final area over proxy area (as the wrapping `u32`
products compute them). -/
theorem preview_estimate_exact_below_threshold (C : Codecs) (fs : FS)
    (cfg : CompressConfig) (p : String) (sz : Nat) (img : Image)
    (bytes : List Nat)
    (hm : fs.metadataLen p = some sz)
    (ho : fs.openImage p = some img)
    (hfit : (previewFinalDims img.width img.height
        (cfg.max_width.getD U32MAX) (cfg.max_height.getD U32MAX)).1 ≤ 256)
    (henc : encodeBytes C cfg
        (resize C img
          (previewFinalDims img.width img.height (cfg.max_width.getD U32MAX)
            (cfg.max_height.getD U32MAX)).1
          (previewFinalDims img.width img.height (cfg.max_width.getD U32MAX)
            (cfg.max_height.getD U32MAX)).2
          FilterType.triangle) = some bytes)
    (hlen : bytes.length ≤ U64MAX) :
    previewItem C fs cfg p
      = some { path := p, original_size := sz, preview_size := bytes.length }
  ∧ ∀ fw fh : Nat, 256 < fw →
      previewProxy C img fw fh
        = (resize C img 256 256 FilterType.triangle,
            ((fw * fh % U32MOD : Nat) : ℚ)
              / (((resize C img 256 256 FilterType.triangle).width
                    * (resize C img 256 256 FilterType.triangle).height
                    % U32MOD : Nat) : ℚ)) := by
  constructor
  · have hproxy : previewProxy C img
        (previewFinalDims img.width img.height (cfg.max_width.getD U32MAX)
          (cfg.max_height.getD U32MAX)).1
        (previewFinalDims img.width img.height (cfg.max_width.getD U32MAX)
          (cfg.max_height.getD U32MAX)).2
        = (resize C img
            (previewFinalDims img.width img.height
              (cfg.max_width.getD U32MAX) (cfg.max_height.getD U32MAX)).1
            (previewFinalDims img.width img.height
              (cfg.max_width.getD U32MAX) (cfg.max_height.getD U32MAX)).2
            FilterType.triangle, 1) := by
      rw [previewProxy, if_neg (not_lt.mpr hfit)]
    simp only [previewItem, hm, ho, hproxy, henc]
    have hcast : u64cast ((bytes.length : ℚ) * 1) = bytes.length := by
      rw [mul_one, u64cast, Int.floor_natCast, Int.toNat_natCast,
        min_eq_left hlen]
    rw [hcast]
  · intro fw fh hgt
    rw [previewProxy, if_pos hgt]

/-- Witness for C7: the 2×1 image under absent caps has final width 2 ≤
256, so the emitted estimate is exactly the one-byte proxy encode. -/
theorem preview_estimate_exact_below_threshold_witness :
    previewItem codecsW fsW cfgPrev2 "a"
      = some { path := "a", original_size := 100,
               preview_size := ([0] : List Nat).length } :=
  (preview_estimate_exact_below_threshold codecsW fsW cfgPrev2 "a" 100
    imgW21 [0] rfl rfl
    (by
      have hpf : previewFinalDims 2 1 U32MAX U32MAX = (2, 1) := by
        norm_num [previewFinalDims, u32cast, U32MAX, min_def]
        decide
      show (previewFinalDims 2 1 U32MAX U32MAX).1 ≤ 256
      rw [hpf]
      decide)
    rfl (by decide)).1

/-! ## C8: preview omission semantics -/

lemma previewItem_path (C : Codecs) (fs : FS) (cfg : CompressConfig)
    (p : String) (r : PreviewResult)
    (h : previewItem C fs cfg p = some r) : r.path = p := by
  unfold previewItem at h
  split at h
  · cases h
  · split at h
    · cases h
    · dsimp only at h
      split at h
      · cases h
      · rw [Option.some.injEq] at h
        rw [← h]

lemma previewResults_countP_none (C : Codecs) (fs : FS)
    (cfg : CompressConfig) (p : String)
    (hnone : previewItem C fs cfg p = none) (ps : List String) :
    (ps.filterMap (previewItem C fs cfg)).countP (fun r => r.path == p)
      = 0 := by
  induction ps with
  | nil => rfl
  | cons q t ih =>
    rw [List.filterMap_cons]
    cases hq : previewItem C fs cfg q with
    | none => exact ih
    | some r =>
      rw [List.countP_cons]
      have hrq : r.path = q := previewItem_path C fs cfg q r hq
      have hqp : q ≠ p := by
        rintro rfl
        rw [hnone] at hq
        cases hq
      simp [hrq, hqp, ih]

lemma previewResults_countP_some (C : Codecs) (fs : FS)
    (cfg : CompressConfig) (p : String) (r0 : PreviewResult)
    (hsome : previewItem C fs cfg p = some r0) (ps : List String) :
    (ps.filterMap (previewItem C fs cfg)).countP (fun r => r.path == p)
      = ps.countP (fun q => q == p) := by
  induction ps with
  | nil => rfl
  | cons q t ih =>
    rw [List.filterMap_cons, List.countP_cons]
    by_cases hqp : q = p
    · subst hqp
      rw [hsome, List.countP_cons]
      have hrq : r0.path = q := previewItem_path C fs cfg q r0 hsome
      simp [hrq, ih]
    · cases hq : previewItem C fs cfg q with
      | none => simp [ih, hqp]
      | some r =>
        have hrq : r.path = q := previewItem_path C fs cfg q r hq
        rw [List.countP_cons]
        simp [hrq, hqp, ih]

/-- C8: the Preview Estimator emits exactly one aggregate `preview-done`
event and nothing else; every surviving result carries the path it
originated from; a path whose item fails contributes no result at all
(silent omission, never an error event); and a path whose item succeeds
contributes exactly one result per occurrence in the input list. -/
theorem preview_zero_or_one_result_per_path (C : Codecs) (fs : FS)
    (cfg : CompressConfig) :
    preview_images C fs cfg
        = [Event.previewDone (previewResults C fs cfg)]
  ∧ (∀ p r, previewItem C fs cfg p = some r → r.path = p)
  ∧ (∀ p, previewItem C fs cfg p = none →
      (previewResults C fs cfg).countP (fun r => r.path == p) = 0)
  ∧ (∀ p r, previewItem C fs cfg p = some r →
      (previewResults C fs cfg).countP (fun r2 => r2.path == p)
        = cfg.paths.countP (fun q => q == p)) := by
  refine ⟨rfl, previewItem_path C fs cfg, ?_, ?_⟩
  · intro p hnone
    exact previewResults_countP_none C fs cfg p hnone cfg.paths
  · intro p r hsome
    exact previewResults_countP_some C fs cfg p r hsome cfg.paths

/-- Witness for C8: over the configuration with one readable and one
missing path, the events are the single aggregate event, and the missing
path contributes no result. -/
theorem preview_zero_or_one_result_per_path_witness :
    preview_images codecsW fsW cfgPrev
        = [Event.previewDone (previewResults codecsW fsW cfgPrev)]
  ∧ (previewResults codecsW fsW cfgPrev).countP
      (fun r => r.path == "missing") = 0 :=
  ⟨(preview_zero_or_one_result_per_path codecsW fsW cfgPrev).1,
   (preview_zero_or_one_result_per_path codecsW fsW cfgPrev).2.2.1
     "missing" rfl⟩

/-! ## C9: unknown format — empty preview, full batch -/

/-- C9: for any format tag outside {jpg, jpeg, png, webp, avif}, the
Preview Estimator emits no result for any path — whatever the filesystem
makes readable and decodable — while the Batch Executor still emits one
terminal `ProcessResult` per input path through its fallback save path. -/
theorem unknown_format_preview_empty_batch_full (C : Codecs) (fs : FS)
    (cfg : CompressConfig) (fuel : Nat)
    (hfmt : cfg.format ∉ (["jpg", "jpeg", "png", "webp", "avif"] : List String)) :
    previewResults C fs cfg = []
  ∧ ((compress_images C fs cfg fuel).filterMap eventResult).length
      = cfg.paths.length := by
  simp only [List.mem_cons, List.mem_singleton, not_or] at hfmt
  obtain ⟨h1, h2, h3, h4, h5, -⟩ := hfmt
  have henc : ∀ img, encodeBytes C cfg img = none := by
    intro img
    rw [encodeBytes, if_neg h4, if_neg h5, if_neg h3,
      if_neg (not_or.mpr ⟨h1, h2⟩)]
  have hitem : ∀ p, previewItem C fs cfg p = none := by
    intro p
    unfold previewItem
    cases hm : fs.metadataLen p with
    | none => rfl
    | some sz =>
      cases ho : fs.openImage p with
      | none => rfl
      | some img =>
        dsimp only
        rw [henc]
  constructor
  · rw [previewResults]
    exact List.filterMap_eq_nil_iff.mpr (fun a _ => hitem a)
  · have hsplit : (compress_images C fs cfg fuel).filterMap eventResult
        = (cfg.paths.flatMap (compressItem C fs cfg fuel)).filterMap
            eventResult := by
      simp [compress_images, List.filterMap_append, eventResult]
    rw [hsplit, ← List.length_map
      ((cfg.paths.flatMap (compressItem C fs cfg fuel)).filterMap eventResult)
      ProcessResult.original,
      compress_results_map]

/-- Witness for C9 at the "bmp" configuration over one readable path: the
preview is empty while the batch produces one result. -/
theorem unknown_format_preview_empty_batch_full_witness :
    previewResults codecsW fsW cfgBmp = []
  ∧ ((compress_images codecsW fsW cfgBmp 1).filterMap eventResult).length
      = cfgBmp.paths.length :=
  unknown_format_preview_empty_batch_full codecsW fsW cfgBmp 1 (by decide)

/-! ## C10: the collected sequences preserve input order -/

/-- C10: both parallel collectors preserve the relative order of the input
list: if path `A` precedes path `B` in the input and both survive, `A`'s
result precedes `B`'s result, in the preview results and in the metadata
results. -/
theorem parallel_collect_preserves_input_order (C : Codecs) (fs : FS)
    (cfg : CompressConfig) (pre mid post : List String) (A B : String)
    (ra rb : PreviewResult) (ma mb : ImageMetadata)
    (hpaths : cfg.paths = pre ++ A :: (mid ++ B :: post))
    (ha : previewItem C fs cfg A = some ra)
    (hb : previewItem C fs cfg B = some rb)
    (hma : metadataItem fs A = some ma)
    (hmb : metadataItem fs B = some mb) :
    (∃ x y z, previewResults C fs cfg = x ++ ra :: (y ++ rb :: z))
  ∧ (∃ x y z, get_images_metadata fs cfg.paths
      = x ++ ma :: (y ++ mb :: z)) := by
  constructor
  · refine ⟨pre.filterMap (previewItem C fs cfg),
      mid.filterMap (previewItem C fs cfg),
      post.filterMap (previewItem C fs cfg), ?_⟩
    rw [previewResults, hpaths]
    simp [List.filterMap_append, List.filterMap_cons, ha, hb]
  · refine ⟨pre.filterMap (metadataItem fs), mid.filterMap (metadataItem fs),
      post.filterMap (metadataItem fs), ?_⟩
    rw [get_images_metadata, hpaths]
    simp [List.filterMap_append, List.filterMap_cons, hma, hmb]

lemma previewItem_W (s : String) (hs : fsW.metadataLen s = some 100)
    (ho : fsW.openImage s = some imgW21) :
    previewItem codecsW fsW cfgPrev2 s = some ⟨s, 100, 1⟩ := by
  have hfd : previewFinalDims imgW21.width imgW21.height
      (cfgPrev2.max_width.getD U32MAX) (cfgPrev2.max_height.getD U32MAX)
        = (2, 1) := by
    show previewFinalDims 2 1 U32MAX U32MAX = (2, 1)
    norm_num [previewFinalDims, u32cast, U32MAX, min_def]
    decide
  have hpp : previewProxy codecsW imgW21 2 1
      = (resize codecsW imgW21 2 1 FilterType.triangle, 1) := by
    rw [previewProxy, if_neg (by decide)]
  have henc : encodeBytes codecsW cfgPrev2
      (resize codecsW imgW21 2 1 FilterType.triangle) = some [0] := rfl
  simp only [previewItem, hs, ho, hfd, hpp, henc]
  norm_num [u64cast, U64MAX]

/-- Witness for C10 over the two readable paths `a` then `b`. -/
theorem parallel_collect_preserves_input_order_witness :
    (∃ x y z, previewResults codecsW fsW cfgPrev2
        = x ++ (⟨"a", 100, 1⟩ : PreviewResult)
            :: (y ++ (⟨"b", 100, 1⟩ : PreviewResult) :: z))
  ∧ (∃ x y z, get_images_metadata fsW cfgPrev2.paths
        = x ++ (⟨"a", 2, 1, 100⟩ : ImageMetadata)
            :: (y ++ (⟨"b", 2, 1, 100⟩ : ImageMetadata) :: z)) :=
  parallel_collect_preserves_input_order codecsW fsW cfgPrev2 [] [] []
    "a" "b" ⟨"a", 100, 1⟩ ⟨"b", 100, 1⟩ ⟨"a", 2, 1, 100⟩ ⟨"b", 2, 1, 100⟩
    rfl (previewItem_W "a" rfl rfl) (previewItem_W "b" rfl rfl) rfl rfl

end Rimages
